import Mathlib

/-!
Verification of the Substrate system RPC API (`client/rpc-api/src/system/mod.rs`)
against its specification. The source file declares the `SystemApi` RPC trait;
the backing service components (peer registry, health evaluator, sync state
tracker, log filter controller, status facade) are not part of the source tree,
so they are modelled from the specification, as marked on each definition.
-/

namespace SystemRpc

/-- Strings are modelled as lists of characters, so that parsing and
concatenation can be reasoned about by structural induction. -/
abbrev Str := List Char

/-- Error taxonomy of the status service: `InvalidParams` (malformed peer
address/id, malformed log directive), `NotReserved` (removal of an absent
entry), `SubsystemUnavailable` (timeout/shutdown of a subsystem), `Internal`
(startup misconfiguration). -/
inductive RpcError where
  | invalidParams
  | notReserved
  | subsystemUnavailable
  | internal
  deriving DecidableEq, Repr

/-- Split a character list at every occurrence of the separator character;
models splitting a multiaddr string on the `/` component separator. -/
def splitOnChar (sep : Char) : Str → List Str
  | [] => [[]]
  | c :: cs =>
    match splitOnChar sep cs with
    | [] => [[]]
    | p :: ps => if c = sep then [] :: p :: ps else (c :: p) :: ps

theorem splitOnChar_cons (sep c : Char) (cs : Str) :
    splitOnChar sep (c :: cs) =
      match splitOnChar sep cs with
      | [] => [[]]
      | p :: ps => if c = sep then [] :: p :: ps else (c :: p) :: ps := rfl

theorem splitOnChar_ne_nil (sep : Char) (l : Str) : splitOnChar sep l ≠ [] := by
  cases l with
  | nil => simp [splitOnChar]
  | cons c cs =>
    rw [splitOnChar_cons]
    cases hsp : splitOnChar sep cs with
    | nil => simp
    | cons p ps => by_cases hc : c = sep <;> simp [hc]

theorem splitOnChar_of_not_mem (sep : Char) (l : Str) (h : sep ∉ l) :
    splitOnChar sep l = [l] := by
  induction l with
  | nil => rfl
  | cons c cs ih =>
    have hc : c ≠ sep := fun hcs => h (hcs ▸ List.mem_cons_self c cs)
    have hcs : sep ∉ cs := fun hm => h (List.mem_cons_of_mem c hm)
    rw [splitOnChar_cons, ih hcs]
    simp [hc]

theorem splitOnChar_append_sep_of_not_mem (sep : Char) (xs ys : Str)
    (h : sep ∉ xs) :
    splitOnChar sep (xs ++ sep :: ys) = xs :: splitOnChar sep ys := by
  induction xs with
  | nil =>
    rw [List.nil_append, splitOnChar_cons]
    cases hy : splitOnChar sep ys with
    | nil => exact absurd hy (splitOnChar_ne_nil sep ys)
    | cons p ps => simp
  | cons c cs ih =>
    have hc : c ≠ sep := fun hcs => h (hcs ▸ List.mem_cons_self c cs)
    have hcs : sep ∉ cs := fun hm => h (List.mem_cons_of_mem c hm)
    rw [List.cons_append, splitOnChar_cons, ih hcs]
    simp [hc]

theorem splitOnChar_append_sep (sep : Char) (xs ys : Str) :
    ∃ L : List Str, L ≠ [] ∧
      splitOnChar sep (xs ++ sep :: ys) = L ++ splitOnChar sep ys := by
  induction xs with
  | nil =>
    refine ⟨[[]], by simp, ?_⟩
    rw [List.nil_append, splitOnChar_cons]
    cases hy : splitOnChar sep ys with
    | nil => exact absurd hy (splitOnChar_ne_nil sep ys)
    | cons p ps => simp
  | cons c cs ih =>
    obtain ⟨L, hL, hsplit⟩ := ih
    match L, hL with
    | p :: ps, _ =>
      rw [List.cons_append, splitOnChar_cons, hsplit]
      by_cases hc : c = sep
      · exact ⟨[] :: p :: ps, by simp, by simp [hc]⟩
      · exact ⟨(c :: p) :: ps, by simp, by simp [hc]⟩

/-- The base58 (Bitcoin/IPFS) alphabet: digits and letters excluding
`0`, `O`, `I`, `l`. -/
def base58Alphabet : Str :=
  ['1', '2', '3', '4', '5', '6', '7', '8', '9',
   'A', 'B', 'C', 'D', 'E', 'F', 'G', 'H', 'J', 'K', 'L', 'M', 'N',
   'P', 'Q', 'R', 'S', 'T', 'U', 'V', 'W', 'X', 'Y', 'Z',
   'a', 'b', 'c', 'd', 'e', 'f', 'g', 'h', 'i', 'j', 'k', 'm', 'n', 'o',
   'p', 'q', 'r', 's', 't', 'u', 'v', 'w', 'x', 'y', 'z']

def isBase58Char (c : Char) : Bool := base58Alphabet.contains c

/-- The literal `p2p` multiaddr protocol tag. -/
def p2pTag : Str := ['p', '2', 'p']

/-- Modelled from the spec: the address parser of `addReservedPeer` (the
backing implementation behind `system_add_reserved_peer` is not in the source
tree). The spec requires the string to "encode a `p2p` multiaddr" with a peer
identifier suffix, e.g. `/ip4/198.51.100.19/tcp/30333/p2p/QmSk5…`; parsing
fails if the address cannot be parsed or lacks an identifier. The embedded
peer id is the final component, preceded by a `p2p` component, and must be a
nonempty base58 string. -/
def parsePeerAddress (addr : Str) : Option Str :=
  match (splitOnChar '/' addr).reverse with
  | pid :: comp :: _ =>
    if comp = p2pTag ∧ pid ≠ [] ∧ pid.all isBase58Char then some pid else none
  | _ => none

/-- The peer registry's observable state: the reserved-peer set, kept as the
list of reserved peer identifiers. -/
structure PeerRegistry where
  reserved : List Str
  deriving DecidableEq, Repr

/-- Modelled from the spec: `listReservedPeers() -> sequence<string>`, the
query behind `system_reserved_peers`. -/
def reservedPeers (st : PeerRegistry) : List Str := st.reserved

/-- Modelled from the spec: `addReservedPeer(address)` behind
`system_add_reserved_peer`. Parses the address; on failure reports
`InvalidParams` locally, before any subsystem call, leaving the registry
unchanged; on success records the embedded peer id in the reserved set
(idempotent-success policy for an already-present peer). -/
def addReservedPeer (addr : Str) (st : PeerRegistry) :
    Except RpcError Unit × PeerRegistry :=
  match parsePeerAddress addr with
  | none => (Except.error RpcError.invalidParams, st)
  | some pid =>
    (Except.ok (),
     ⟨if pid ∈ st.reserved then st.reserved else st.reserved ++ [pid]⟩)

/-- A well-formed bare peer identifier: nonempty base58 text, as in
`QmSk5HQbn6LhUwDiNMseVUjuRYhEtYj4aUZ6WfWoGURpdV`. -/
def validPeerId (pid : Str) : Bool := !pid.isEmpty && pid.all isBase58Char

/-- Modelled from the spec: `removeReservedPeer(peerId)` behind
`system_remove_reserved_peer`. Fails with `InvalidParams` on a malformed
identifier, fails with `NotReserved` when the peer is not currently reserved,
and otherwise removes the identifier from the reserved set. -/
def removeReservedPeer (pid : Str) (st : PeerRegistry) :
    Except RpcError Unit × PeerRegistry :=
  if validPeerId pid then
    if pid ∈ st.reserved then
      (Except.ok (), ⟨st.reserved.filter (fun q => q ≠ pid)⟩)
    else (Except.error RpcError.notReserved, st)
  else (Except.error RpcError.invalidParams, st)

theorem remove_reserved_not_mem (pid : Str) (st st' : PeerRegistry)
    (h : removeReservedPeer pid st = (Except.ok (), st')) :
    pid ∉ reservedPeers st' := by
  unfold removeReservedPeer at h
  split at h
  · split at h
    · injection h with _ hst'
      subst hst'
      simp [reservedPeers, List.mem_filter]
    · injection h with hbad _
      exact absurd hbad (by simp)
  · injection h with hbad _
    exact absurd hbad (by simp)

/-- C1: after a successful `addReservedPeer(X)`, `reservedPeers()` includes
the peer identifier embedded in `X`; after a subsequent successful
`removeReservedPeer` of that identifier, `reservedPeers()` excludes it. -/
theorem add_remove_reserved_roundtrip
    (addr pid : Str) (st st' st'' : PeerRegistry)
    (hparse : parsePeerAddress addr = some pid)
    (hadd : addReservedPeer addr st = (Except.ok (), st'))
    (hrem : removeReservedPeer pid st' = (Except.ok (), st'')) :
    pid ∈ reservedPeers st' ∧ pid ∉ reservedPeers st'' := by
  unfold addReservedPeer at hadd
  rw [hparse] at hadd
  injection hadd with _ hst'
  subst hst'
  constructor
  · by_cases hmem : pid ∈ st.reserved
    · simp [reservedPeers, hmem]
    · simp [reservedPeers, hmem]
  · exact remove_reserved_not_mem pid _ st'' hrem

/-- The concrete malformed address string `"not-an-address"`. -/
def notAnAddress : Str := "not-an-address".data

/-- C5: calling `addReservedPeer` with the unparsable string
`"not-an-address"` returns `InvalidParams` and leaves the reserved-peer set
observable via `reservedPeers` exactly as it was. -/
theorem add_reserved_malformed (st : PeerRegistry) :
    addReservedPeer notAnAddress st = (Except.error RpcError.invalidParams, st) ∧
    reservedPeers (addReservedPeer notAnAddress st).2 = reservedPeers st := by
  have h : parsePeerAddress notAnAddress = none := by decide
  unfold addReservedPeer
  rw [h]
  exact ⟨rfl, rfl⟩

/-- The valid example multiaddr documented on `system_add_reserved_peer`. -/
def exampleAddr : Str :=
  "/ip4/198.51.100.19/tcp/30333/p2p/QmSk5HQbn6LhUwDiNMseVUjuRYhEtYj4aUZ6WfWoGURpdV".data

/-- The peer identifier embedded in `exampleAddr`. -/
def examplePid : Str := "QmSk5HQbn6LhUwDiNMseVUjuRYhEtYj4aUZ6WfWoGURpdV".data

/-- Witness for C1, at the example multiaddr documented in the source. -/
theorem add_remove_reserved_roundtrip_witness :
    (parsePeerAddress exampleAddr = some examplePid ∧
     addReservedPeer exampleAddr ⟨[]⟩ = (Except.ok (), ⟨[examplePid]⟩) ∧
     removeReservedPeer examplePid ⟨[examplePid]⟩ = (Except.ok (), ⟨[]⟩)) ∧
    (examplePid ∈ reservedPeers ⟨[examplePid]⟩ ∧
     examplePid ∉ reservedPeers (⟨[]⟩ : PeerRegistry)) :=
  ⟨⟨by decide, by rfl, by rfl⟩,
   add_remove_reserved_roundtrip exampleAddr examplePid ⟨[]⟩ ⟨[examplePid]⟩ ⟨[]⟩
     (by decide) (by rfl) (by rfl)⟩

/-- The health record returned by `system_health`: syncing flag, peer count,
and whether the node should have peers at all. -/
structure Health where
  isSyncing : Bool
  peers : Nat
  shouldHavePeers : Bool
  deriving DecidableEq, Repr

/-- Modelled from the spec: the health evaluator behind `system_health`,
`evaluate(peerCount, isSyncing, isDevMode) -> Health` with policy
`shouldHavePeers = !isDevMode`. The source documents the node as healthy if
it is connected to some peers (unless running in dev mode) and not performing
a major sync. -/
def evaluateHealth (peerCount : Nat) (isSyncing isDevMode : Bool) : Health :=
  { isSyncing := isSyncing, peers := peerCount, shouldHavePeers := !isDevMode }

/-- Modelled from the spec: the healthy-eligibility projection a caller
derives from the returned `Health` fields, `peerCount > 0 || isDevMode`
(dev mode being recorded as `!shouldHavePeers`). -/
def healthyEligible (h : Health) : Bool :=
  decide (0 < h.peers) || !h.shouldHavePeers

/-- Modelled from the spec: the full healthy projection,
`(peerCount > 0 || isDevMode) && !isMajorSyncStalled`. -/
def isHealthy (h : Health) (isMajorSyncStalled : Bool) : Bool :=
  healthyEligible h && !isMajorSyncStalled

/-- C2: for every peer count, syncing flag and devMode flag, the `Health`
value produced by the health evaluation has `shouldHavePeers` equal to the
negation of `devMode`. -/
theorem evaluateHealth_shouldHavePeers (p : Nat) (syncing devMode : Bool) :
    (evaluateHealth p syncing devMode).shouldHavePeers = !devMode := rfl

/-- C3: for every peer count and devMode flag, the node's health is
healthy-eligible iff `p > 0 || devMode`, and the node is considered healthy
exactly when additionally no major sync is stalled. -/
theorem healthyEligible_iff (p : Nat) (syncing devMode : Bool) :
    (healthyEligible (evaluateHealth p syncing devMode) =
      (decide (0 < p) || devMode)) ∧
    (∀ stalled : Bool,
      isHealthy (evaluateHealth p syncing devMode) stalled =
        ((decide (0 < p) || devMode) && !stalled)) := by
  constructor
  · simp [healthyEligible, evaluateHealth]
  · intro stalled
    simp [isHealthy, healthyEligible, evaluateHealth]

/-- The sync-progress snapshot returned by `system_sync_state`: starting
block, current best block, and the highest known block when one is known. -/
structure SyncState where
  startingBlock : Nat
  currentBlock : Nat
  highestBlock : Option Nat
  deriving DecidableEq, Repr

/-- The sync-state invariant: `startingBlock <= currentBlock`, and when
`highestBlock` is known, `currentBlock <= highestBlock`. -/
def SyncInvariant (s : SyncState) : Prop :=
  s.startingBlock ≤ s.currentBlock ∧
  ∀ hb : Nat, s.highestBlock = some hb → s.currentBlock ≤ hb

/-- The sync state tracker: a read-through cache holding the latest snapshot
pushed by the sync engine. -/
structure SyncTracker where
  latest : SyncState
  deriving DecidableEq, Repr

/-- Modelled from the spec: tracker creation from the sync engine's initial
snapshot. -/
def initSyncTracker (s : SyncState) : SyncTracker := ⟨s⟩

/-- Modelled from the spec: a push of a new snapshot by the sync engine
(last-write-wins on the tracker's cached value). -/
def pushSync (s : SyncState) (_t : SyncTracker) : SyncTracker := ⟨s⟩

/-- Modelled from the spec: `snapshot()`, the pure read behind
`system_sync_state`. -/
def syncSnapshot (t : SyncTracker) : SyncState := t.latest

/-- Reachable tracker states: created from, and updated with, sync-engine
snapshots; the sync engine owns sync progress and maintains the documented
invariant on every value it pushes. -/
inductive SyncReachable : SyncTracker → Prop where
  | init (s : SyncState) (hs : SyncInvariant s) : SyncReachable (initSyncTracker s)
  | push (s : SyncState) (t : SyncTracker) (hs : SyncInvariant s)
      (ht : SyncReachable t) : SyncReachable (pushSync s t)

/-- C4: every `SyncState` snapshot returned by the `syncState` operation has
`startingBlock <= currentBlock`, and whenever `highestBlock` is present,
`currentBlock <= highestBlock` as well. -/
theorem syncSnapshot_invariant (t : SyncTracker) (ht : SyncReachable t) :
    (syncSnapshot t).startingBlock ≤ (syncSnapshot t).currentBlock ∧
    ∀ hb : Nat, (syncSnapshot t).highestBlock = some hb →
      (syncSnapshot t).currentBlock ≤ hb := by
  induction ht with
  | init s hs => exact hs
  | push s t hs ht ih => exact hs

/-- Witness for C4: a concrete reachable tracker state. -/
theorem syncSnapshot_invariant_witness :
    SyncReachable (pushSync ⟨2, 5, some 9⟩ (initSyncTracker ⟨0, 1, none⟩)) ∧
    ((syncSnapshot (pushSync ⟨2, 5, some 9⟩
        (initSyncTracker ⟨0, 1, none⟩))).startingBlock ≤
      (syncSnapshot (pushSync ⟨2, 5, some 9⟩
        (initSyncTracker ⟨0, 1, none⟩))).currentBlock ∧
     ∀ hb : Nat, (syncSnapshot (pushSync ⟨2, 5, some 9⟩
        (initSyncTracker ⟨0, 1, none⟩))).highestBlock = some hb →
      (syncSnapshot (pushSync ⟨2, 5, some 9⟩
        (initSyncTracker ⟨0, 1, none⟩))).currentBlock ≤ hb) := by
  have hreach : SyncReachable (pushSync ⟨2, 5, some 9⟩
      (initSyncTracker ⟨0, 1, none⟩)) :=
    SyncReachable.push _ _
      ⟨by decide, fun hb hh => by injection hh with h; subst h; decide⟩
      (SyncReachable.init _ ⟨by decide, fun hb hh => by injection hh⟩)
  exact ⟨hreach, syncSnapshot_invariant _ hreach⟩

/-- A tracing verbosity level, as written in CLI directive syntax. -/
inductive LogLevel where
  | error
  | warn
  | info
  | debug
  | trace
  deriving DecidableEq, Repr

/-- Parse one verbosity-level token of a log directive. -/
def parseLogLevel (s : Str) : Option LogLevel :=
  if s = "error".data then some LogLevel.error
  else if s = "warn".data then some LogLevel.warn
  else if s = "info".data then some LogLevel.info
  else if s = "debug".data then some LogLevel.debug
  else if s = "trace".data then some LogLevel.trace
  else none

/-- One log directive: a `(target, level)` pair. -/
structure LogDirective where
  target : Str
  level : LogLevel
  deriving DecidableEq, Repr

/-- A directive is valid when its target is nonempty. -/
def validDirective (d : LogDirective) : Bool := !d.target.isEmpty

/-- Modelled from the spec: parsing of a single `target=level` token of the
CLI directive syntax used by `system_add_log_filter`. -/
def parseDirective (s : Str) : Option LogDirective :=
  match splitOnChar '=' s with
  | [t, l] =>
    match parseLogLevel l with
    | some lv => if validDirective ⟨t, lv⟩ then some ⟨t, lv⟩ else none
    | none => none
  | _ => none

/-- Parse each comma-separated token of a directive string; the whole parse
fails if any token is malformed. -/
def parseDirectiveList : List Str → Option (List LogDirective)
  | [] => some []
  | s :: rest =>
    match parseDirective s, parseDirectiveList rest with
    | some d, some ds => some (d :: ds)
    | _, _ => none

/-- Modelled from the spec: parsing of a comma-separated sequence of
`target=level` pairs, the `sync=debug,state=trace` syntax. -/
def parseDirectives (s : Str) : Option (List LogDirective) :=
  parseDirectiveList (splitOnChar ',' s)

/-- Modelled from the spec: merging new directives into the active directive
set — entries for the same target overwrite, others are additive. -/
def mergeDirectives (old added : List LogDirective) : List LogDirective :=
  old.filter (fun d => added.all fun n => n.target ≠ d.target) ++ added

/-- Modelled from the spec: applying a directive set to the live logging
subsystem; it can fail (fatally) only on an invalid directive set, which
cannot occur for directive sets produced by the parser. -/
def applyDirectives (ds : List LogDirective) : Except RpcError Unit :=
  if ds.all validDirective then Except.ok () else Except.error RpcError.internal

/-- The log filter controller's state: the directive set captured at process
startup and the currently active directive set. -/
structure LogFilterState where
  baseline : List LogDirective
  active : List LogDirective
  deriving DecidableEq, Repr

/-- Modelled from the spec: controller initialization from the startup
configuration's directive string; captures the parsed set as both the
baseline and the initially active set. -/
def initLogFilter (startup : Str) : Option LogFilterState :=
  (parseDirectives startup).map fun ds => ⟨ds, ds⟩

/-- Modelled from the spec: `addDirectives` behind `system_add_log_filter`.
Parses the supplied directives; on malformed syntax fails with
`InvalidParams` leaving the state unchanged; on success merges into the
active set and applies the result to the logging subsystem. -/
def addLogFilter (directives : Str) (st : LogFilterState) :
    Except RpcError Unit × LogFilterState :=
  match parseDirectives directives with
  | none => (Except.error RpcError.invalidParams, st)
  | some ds =>
    match applyDirectives (mergeDirectives st.active ds) with
    | Except.ok _ => (Except.ok (), ⟨st.baseline, mergeDirectives st.active ds⟩)
    | Except.error e => (Except.error e, st)

/-- Modelled from the spec: `resetToDefault` behind `system_reset_log_filter`,
re-applying the startup baseline and making it the active set. -/
def resetLogFilter (st : LogFilterState) : Except RpcError Unit × LogFilterState :=
  match applyDirectives st.baseline with
  | Except.ok _ => (Except.ok (), ⟨st.baseline, st.baseline⟩)
  | Except.error e => (Except.error e, st)

theorem parseDirective_valid (s : Str) (d : LogDirective)
    (h : parseDirective s = some d) : validDirective d = true := by
  unfold parseDirective at h
  split at h
  · split at h
    · split at h
      · injection h with hd
        subst hd
        assumption
      · exact absurd h (by simp)
    · exact absurd h (by simp)
  · exact absurd h (by simp)

theorem parseDirectiveList_valid (l : List Str) (ds : List LogDirective)
    (h : parseDirectiveList l = some ds) : ds.all validDirective = true := by
  induction l generalizing ds with
  | nil =>
    unfold parseDirectiveList at h
    injection h with hd
    subst hd
    rfl
  | cons s rest ih =>
    unfold parseDirectiveList at h
    split at h
    next d ds' hd' hds' =>
      injection h with hd
      subst hd
      rw [List.all_cons, parseDirective_valid s d hd', ih ds' hds']
      rfl
    next => exact absurd h (by simp)

theorem parseDirectives_valid (s : Str) (ds : List LogDirective)
    (h : parseDirectives s = some ds) : ds.all validDirective = true :=
  parseDirectiveList_valid _ ds h

theorem addLogFilter_baseline (s : Str) (st : LogFilterState) :
    ((addLogFilter s st).2).baseline = st.baseline := by
  cases hp : parseDirectives s with
  | none => simp [addLogFilter, hp]
  | some ds =>
    cases ha : applyDirectives (mergeDirectives st.active ds) with
    | ok u => simp [addLogFilter, hp, ha]
    | error e => simp [addLogFilter, hp, ha]

theorem resetLogFilter_baseline (st : LogFilterState) :
    ((resetLogFilter st).2).baseline = st.baseline := by
  cases ha : applyDirectives st.baseline with
  | ok u => simp [resetLogFilter, ha]
  | error e => simp [resetLogFilter, ha]

/-- Reachable controller states: initialized from a parsable startup
configuration, then evolved by add-filter and reset calls. -/
inductive LogReachable : LogFilterState → Prop where
  | init (startup : Str) (st : LogFilterState)
      (h : initLogFilter startup = some st) : LogReachable st
  | add (s : Str) (st : LogFilterState) (ht : LogReachable st) :
      LogReachable (addLogFilter s st).2
  | reset (st : LogFilterState) (ht : LogReachable st) :
      LogReachable (resetLogFilter st).2

theorem logReachable_baseline_valid (st : LogFilterState)
    (ht : LogReachable st) : st.baseline.all validDirective = true := by
  induction ht with
  | init startup st h =>
    unfold initLogFilter at h
    cases hp : parseDirectives startup with
    | none => rw [hp] at h; exact absurd h (by simp)
    | some ds =>
      rw [hp] at h
      injection h with hd
      subst hd
      exact parseDirectives_valid startup ds hp
  | add s st ht ih => rw [addLogFilter_baseline]; exact ih
  | reset st ht ih => rw [resetLogFilter_baseline]; exact ih

/-- C7: for every reachable state of the log-filter controller, the
`resetLogFilter` operation succeeds — it never returns an error (the fatal
re-application failure cannot occur, since the startup baseline was produced
by the directive parser). -/
theorem resetLogFilter_total (st : LogFilterState) (ht : LogReachable st) :
    (resetLogFilter st).1 = Except.ok () := by
  have hv := logReachable_baseline_valid st ht
  simp [resetLogFilter, applyDirectives, hv]

/-- A sequence of `addLogFilter` calls, each of which succeeds. -/
inductive AddSeq : LogFilterState → List Str → LogFilterState → Prop where
  | nil (st : LogFilterState) : AddSeq st [] st
  | cons (s : Str) (rest : List Str) (st st' st'' : LogFilterState)
      (h : addLogFilter s st = (Except.ok (), st'))
      (hrest : AddSeq st' rest st'') : AddSeq st (s :: rest) st''

theorem addSeq_baseline (st st' : LogFilterState) (specs : List Str)
    (h : AddSeq st specs st') : st'.baseline = st.baseline := by
  induction h with
  | nil st => rfl
  | cons s rest st stm st'' hadd hrest ih =>
    rw [ih]
    have := addLogFilter_baseline s st
    rw [hadd] at this
    exact this

/-- C6: for every directive set captured at process startup and every
sequence of successful `addLogFilter` calls, a subsequent `resetLogFilter`
call succeeds and restores the active directive set to exactly the startup
set (which equals the controller's baseline, the active set right after
initialization). -/
theorem resetLogFilter_restores_startup (startup : Str)
    (st0 st : LogFilterState) (specs : List Str)
    (hinit : initLogFilter startup = some st0)
    (hseq : AddSeq st0 specs st) :
    (resetLogFilter st).1 = Except.ok () ∧
    ((resetLogFilter st).2).active = st0.baseline ∧
    st0.active = st0.baseline := by
  have hreach0 : LogReachable st0 := LogReachable.init startup st0 hinit
  have hbase : st.baseline = st0.baseline := addSeq_baseline st0 st specs hseq
  have hv : st.baseline.all validDirective = true := by
    rw [hbase]
    exact logReachable_baseline_valid st0 hreach0
  refine ⟨?_, ?_, ?_⟩
  · simp [resetLogFilter, applyDirectives, hv]
  · simp [resetLogFilter, applyDirectives, hv]
    exact hbase
  · unfold initLogFilter at hinit
    cases hp : parseDirectives startup with
    | none => rw [hp] at hinit; exact absurd hinit (by simp)
    | some ds =>
      rw [hp] at hinit
      injection hinit with hd
      subst hd
      rfl

/-- The startup directive string used as a concrete witness. -/
def wStartup : Str := "sync=info".data

/-- The directive string of the spec's add-filter example. -/
def wAddSpec : Str := "sync=debug,state=trace".data

/-- The directive parsed from `wStartup`. -/
def wD0 : LogDirective := ⟨"sync".data, LogLevel.info⟩

/-- The controller state right after initialization from `wStartup`. -/
def wSt0 : LogFilterState := ⟨[wD0], [wD0]⟩

/-- The controller state after a successful `addLogFilter wAddSpec`. -/
def wSt1 : LogFilterState :=
  ⟨[wD0], [⟨"sync".data, LogLevel.debug⟩, ⟨"state".data, LogLevel.trace⟩]⟩

/-- Witness for C6, at the spec's `sync=debug,state=trace` example. -/
theorem resetLogFilter_restores_startup_witness :
    (initLogFilter wStartup = some wSt0 ∧ AddSeq wSt0 [wAddSpec] wSt1) ∧
    ((resetLogFilter wSt1).1 = Except.ok () ∧
     ((resetLogFilter wSt1).2).active = wSt0.baseline ∧
     wSt0.active = wSt0.baseline) :=
  ⟨⟨by decide, AddSeq.cons wAddSpec [] wSt0 wSt1 wSt1 (by rfl) (AddSeq.nil wSt1)⟩,
   resetLogFilter_restores_startup wStartup wSt0 wSt1 [wAddSpec] (by decide)
     (AddSeq.cons wAddSpec [] wSt0 wSt1 wSt1 (by rfl) (AddSeq.nil wSt1))⟩

/-- Witness for C7, at the reachable startup state for `wStartup`. -/
theorem resetLogFilter_total_witness :
    LogReachable wSt0 ∧ (resetLogFilter wSt0).1 = Except.ok () :=
  ⟨LogReachable.init wStartup wSt0 (by decide),
   resetLogFilter_total wSt0 (LogReachable.init wStartup wSt0 (by decide))⟩

/-- The chain's type (`sc_chain_spec::ChainType`). -/
inductive ChainType where
  | Development
  | Local
  | Live
  | Custom (name : Str)
  deriving DecidableEq, Repr

/-- A role the node advertises, set at startup and immutable thereafter. -/
inductive NodeRole where
  | Full
  | LightClient
  | Authority
  | Archive
  deriving DecidableEq, Repr

/-- Chain-spec-defined custom properties: an opaque JSON object, modelled as
key-value text pairs. -/
abbrev Properties := List (Str × Str)

/-- The static identity/configuration of the node, fixed at startup. -/
structure NodeConfig where
  implName : Str
  implVersion : Str
  chainName : Str
  chainType : ChainType
  properties : Properties
  nodeRoles : List NodeRole
  deriving DecidableEq, Repr

/-- Modelled from the spec: `system_name`, a static synchronous read. -/
def systemName (c : NodeConfig) : Except RpcError Str := Except.ok c.implName

/-- Modelled from the spec: `system_version`, a static synchronous read. -/
def systemVersion (c : NodeConfig) : Except RpcError Str := Except.ok c.implVersion

/-- Modelled from the spec: `system_chain`, a static synchronous read. -/
def systemChain (c : NodeConfig) : Except RpcError Str := Except.ok c.chainName

/-- Modelled from the spec: `system_type` (RPC `chainType`), a static read. -/
def systemChainType (c : NodeConfig) : Except RpcError ChainType :=
  Except.ok c.chainType

/-- Modelled from the spec: `system_properties`, a static synchronous read. -/
def systemProperties (c : NodeConfig) : Except RpcError Properties :=
  Except.ok c.properties

/-- Modelled from the spec: `system_node_roles` (RPC `nodeRoles`). -/
def systemNodeRoles (c : NodeConfig) : Except RpcError (List NodeRole) :=
  Except.ok c.nodeRoles

/-- C8: the identity/config queries `name`, `version`, `chain`, `chainType`,
`properties` and `nodeRoles` never return a runtime error: in every state
they return exactly their configured value. -/
theorem identity_queries_never_fail (c : NodeConfig) :
    systemName c = Except.ok c.implName ∧
    systemVersion c = Except.ok c.implVersion ∧
    systemChain c = Except.ok c.chainName ∧
    systemChainType c = Except.ok c.chainType ∧
    systemProperties c = Except.ok c.properties ∧
    systemNodeRoles c = Except.ok c.nodeRoles :=
  ⟨rfl, rfl, rfl, rfl, rfl, rfl⟩

/-- One method declaration of the `SystemApi` RPC trait: the Rust method
name, and the RPC name string the method attribute registers it under. -/
structure RpcMethodDecl where
  rustName : String
  rpcName : String
  deriving DecidableEq, Repr

/-- The namespace string declared in the rpc attribute on `SystemApi`. -/
def systemNamespace : String := "system"

/-- The seventeen method declarations of the `SystemApi` trait, in source
order, each with the RPC name string given in its method attribute. -/
def systemApiMethods : List RpcMethodDecl :=
  [⟨"system_name", "name"⟩,
   ⟨"system_version", "version"⟩,
   ⟨"system_chain", "chain"⟩,
   ⟨"system_type", "chainType"⟩,
   ⟨"system_properties", "properties"⟩,
   ⟨"system_health", "health"⟩,
   ⟨"system_local_peer_id", "localPeerId"⟩,
   ⟨"system_local_listen_addresses", "localListenAddresses"⟩,
   ⟨"system_peers", "peers"⟩,
   ⟨"system_network_state", "unstable_networkState"⟩,
   ⟨"system_add_reserved_peer", "addReservedPeer"⟩,
   ⟨"system_remove_reserved_peer", "removeReservedPeer"⟩,
   ⟨"system_reserved_peers", "reservedPeers"⟩,
   ⟨"system_node_roles", "nodeRoles"⟩,
   ⟨"system_sync_state", "syncState"⟩,
   ⟨"system_add_log_filter", "addLogFilter"⟩,
   ⟨"system_reset_log_filter", "resetLogFilter"⟩]

/-- The fully-qualified wire name jsonrpsee exposes: namespace, underscore,
method name. -/
def exposedMethodName (m : RpcMethodDecl) : String :=
  systemNamespace ++ "_" ++ m.rpcName

/-- C9: the network-state query is exposed under the RPC name
`unstable_networkState` in the `system` namespace — callers address it as
`system_unstable_networkState` — and no method of the trait is exposed under
the plain name `networkState`. -/
theorem networkState_exposed_unstable :
    (∃ m ∈ systemApiMethods, m.rustName = "system_network_state") ∧
    (∀ m ∈ systemApiMethods, m.rustName = "system_network_state" →
      m.rpcName = "unstable_networkState" ∧
      exposedMethodName m = "system_unstable_networkState") ∧
    (∀ m ∈ systemApiMethods, m.rpcName ≠ "networkState") := by
  refine ⟨⟨⟨"system_network_state", "unstable_networkState"⟩, ?_, rfl⟩, ?_, ?_⟩
  · decide
  · decide
  · decide

/-- The big-endian base-256 value of a byte string. -/
def bytesToNat (bs : List Nat) : Nat :=
  bs.foldl (fun acc b => acc * 256 + b) 0

/-- Big-endian base-58 digit list of the second argument; the first argument
is recursion fuel, for which the value itself always suffices since the
value strictly shrinks at each division by 58. -/
def base58DigitsAux : Nat → Nat → List Nat
  | 0, _ => []
  | _ + 1, 0 => []
  | fuel + 1, n + 1 =>
    base58DigitsAux fuel ((n + 1) / 58) ++ [(n + 1) % 58]

/-- Base58 encoding of a byte string, Bitcoin/IPFS alphabet: one leading `1`
per leading zero byte, then the base-58 digits of the big-endian value. -/
def base58Encode (bs : List Nat) : Str :=
  List.replicate (bs.takeWhile (fun b => b == 0)).length '1' ++
    (base58DigitsAux (bytesToNat bs) (bytesToNat bs)).map
      (fun d => base58Alphabet.getD d '1')

theorem bytesToNat_foldl_ge (l : List Nat) : ∀ acc : Nat,
    acc * 256 ^ l.length ≤ l.foldl (fun a b => a * 256 + b) acc := by
  induction l with
  | nil => intro acc; simp
  | cons c cs ih =>
    intro acc
    rw [List.foldl_cons]
    calc acc * 256 ^ (c :: cs).length
        = acc * 256 * 256 ^ cs.length := by
          rw [List.length_cons, pow_succ]; ring
      _ ≤ (acc * 256 + c) * 256 ^ cs.length :=
          Nat.mul_le_mul_right _ (Nat.le_add_right _ _)
      _ ≤ cs.foldl (fun a b => a * 256 + b) (acc * 256 + c) := ih _

theorem bytesToNat_pos_of_head_pos (b : Nat) (rest : List Nat) (hb : b ≠ 0) :
    bytesToNat (b :: rest) ≠ 0 := by
  intro hz
  have h1 : b * 256 ^ rest.length ≤ bytesToNat (b :: rest) := by
    have := bytesToNat_foldl_ge rest b
    unfold bytesToNat
    rw [List.foldl_cons]
    simpa using this
  rw [hz] at h1
  have h2 : 0 < b * 256 ^ rest.length :=
    Nat.mul_pos (Nat.pos_of_ne_zero hb) (Nat.pos_pow_of_pos _ (by omega))
  omega

theorem base58Encode_ne_nil (bs : List Nat) (h : bs ≠ []) :
    base58Encode bs ≠ [] := by
  match bs, h with
  | b :: rest, _ =>
    by_cases hb : b = 0
    · subst hb
      unfold base58Encode
      rw [List.takeWhile_cons]
      simp
    · unfold base58Encode
      intro hnil
      rcases List.append_eq_nil.mp hnil with ⟨_, h2⟩
      have hnz : bytesToNat (b :: rest) ≠ 0 := bytesToNat_pos_of_head_pos b rest hb
      rw [List.map_eq_nil_iff] at h2
      match hN : bytesToNat (b :: rest), hnz with
      | N + 1, _ =>
        rw [hN] at h2
        unfold base58DigitsAux at h2
        exact absurd h2 (by simp)

theorem base58Alphabet_getD_mem (d : Nat) :
    base58Alphabet.getD d '1' ∈ base58Alphabet := by
  rw [List.getD_eq_getD_get?]
  cases h : base58Alphabet.get? d with
  | none => simp; decide
  | some c =>
    have hc : c ∈ base58Alphabet := List.get?_mem h
    simpa using hc

theorem base58Encode_mem_alphabet (bs : List Nat) :
    ∀ c ∈ base58Encode bs, c ∈ base58Alphabet := by
  intro c hc
  rcases List.mem_append.mp hc with h | h
  · rw [List.eq_of_mem_replicate h]
    decide
  · obtain ⟨d, _, hd⟩ := List.mem_map.mp h
    rw [← hd]
    exact base58Alphabet_getD_mem d

theorem base58Encode_no_slash (bs : List Nat) : '/' ∉ base58Encode bs := by
  intro hmem
  have h := base58Encode_mem_alphabet bs '/' hmem
  exact absurd h (by decide)

theorem base58Encode_all_base58 (bs : List Nat) :
    (base58Encode bs).all isBase58Char = true := by
  rw [List.all_eq_true]
  intro c hc
  have h := base58Encode_mem_alphabet bs c hc
  simp [isBase58Char]
  exact h

theorem parsePeerAddress_append (b pid : Str) (hne : pid ≠ [])
    (hall : pid.all isBase58Char = true) (hns : '/' ∉ pid) :
    parsePeerAddress (b ++ '/' :: (p2pTag ++ '/' :: pid)) = some pid := by
  obtain ⟨L, hL, hsplit⟩ := splitOnChar_append_sep '/' b (p2pTag ++ '/' :: pid)
  unfold parsePeerAddress
  rw [hsplit, splitOnChar_append_sep_of_not_mem '/' p2pTag pid (by decide),
    splitOnChar_of_not_mem '/' pid hns]
  have hrev : (L ++ [p2pTag, pid]).reverse = pid :: p2pTag :: L.reverse := by
    simp
  rw [hrev]
  simp [hne, hall]

theorem addReservedPeer_ok_mem (addr pid : Str) (st : PeerRegistry)
    (hparse : parsePeerAddress addr = some pid) :
    (addReservedPeer addr st).1 = Except.ok () ∧
    pid ∈ reservedPeers (addReservedPeer addr st).2 := by
  constructor
  · unfold addReservedPeer
    rw [hparse]
  · by_cases hmem : pid ∈ st.reserved <;>
      simp [addReservedPeer, hparse, reservedPeers, hmem]

/-- The network subsystem's identity, as the facade queries it: the raw
PeerId bytes and the listening multiaddrs without their peer-id suffix. -/
structure NetworkSubsystem where
  peerIdBytes : List Nat
  listenBases : List Str

/-- The base58-encoded local PeerId string. -/
def localPeerIdStr (n : NetworkSubsystem) : Str := base58Encode n.peerIdBytes

/-- Modelled from the spec: `system_local_peer_id`, returning the
base58-encoded PeerId of the node. -/
def systemLocalPeerId (n : NetworkSubsystem) : Except RpcError Str :=
  Except.ok (localPeerIdStr n)

/-- Modelled from the spec: `system_local_listen_addresses`; each listening
multiaddr is returned with a trailing `/p2p/` component carrying the local
PeerId, making it suitable to be passed to `addReservedPeer`. -/
def systemLocalListenAddresses (n : NetworkSubsystem) :
    Except RpcError (List Str) :=
  Except.ok (n.listenBases.map
    (fun b => b ++ '/' :: (p2pTag ++ '/' :: localPeerIdStr n)))

/-- C10: `localPeerId` returns exactly the base58 encoding of the node's
PeerId; every address returned by `localListenAddresses` carries a trailing
`/p2p/` component with that same local PeerId; and each returned address is
a valid input to `addReservedPeer`, whose success adds that PeerId to the
reserved set. -/
theorem local_peer_id_listen_addresses (n : NetworkSubsystem)
    (hpid : n.peerIdBytes ≠ []) :
    systemLocalPeerId n = Except.ok (base58Encode n.peerIdBytes) ∧
    ∀ addrs : List Str, systemLocalListenAddresses n = Except.ok addrs →
      ∀ a ∈ addrs,
        parsePeerAddress a = some (localPeerIdStr n) ∧
        ∀ st : PeerRegistry,
          (addReservedPeer a st).1 = Except.ok () ∧
          localPeerIdStr n ∈ reservedPeers (addReservedPeer a st).2 := by
  refine ⟨rfl, ?_⟩
  intro addrs haddrs a ha
  injection haddrs with he
  subst he
  obtain ⟨b, _, hba⟩ := List.mem_map.mp ha
  subst hba
  have hne : localPeerIdStr n ≠ [] := base58Encode_ne_nil _ hpid
  have hns : '/' ∉ localPeerIdStr n := base58Encode_no_slash _
  have hall : (localPeerIdStr n).all isBase58Char = true :=
    base58Encode_all_base58 _
  have hp := parsePeerAddress_append b (localPeerIdStr n) hne hall hns
  exact ⟨hp, fun st => addReservedPeer_ok_mem _ _ st hp⟩

/-- A concrete network subsystem used as the witness for C10. -/
def wNet : NetworkSubsystem :=
  ⟨[0, 18, 52], ["/ip4/127.0.0.1/tcp/30333".data]⟩

/-- Witness for C10, at a concrete PeerId and listening address. -/
theorem local_peer_id_listen_addresses_witness :
    wNet.peerIdBytes ≠ [] ∧
    (systemLocalPeerId wNet = Except.ok (base58Encode wNet.peerIdBytes) ∧
     ∀ addrs : List Str, systemLocalListenAddresses wNet = Except.ok addrs →
      ∀ a ∈ addrs,
        parsePeerAddress a = some (localPeerIdStr wNet) ∧
        ∀ st : PeerRegistry,
          (addReservedPeer a st).1 = Except.ok () ∧
          localPeerIdStr wNet ∈ reservedPeers (addReservedPeer a st).2) :=
  ⟨by decide, local_peer_id_listen_addresses wNet (by decide)⟩

end SystemRpc
